import Mathlib

/-!
Verification development for the enershare-twinp2g-db ingestion assets.

The two source files `src/diplwmatikh/assets/desfa.py` and
`src/diplwmatikh/assets/entsog.py` are shallowly embedded below.  Spreadsheet
cells become the inductive type `Cell`; a parsed sheet is a `List (List Cell)`
(the tabular library pads ragged rows with the missing-value marker, which the
embedding mirrors by reading absent cells as `Cell.nan`).  The timestamp
parser `pd.to_datetime(.., format := y4)` of the tabular library is treated as
an external collaborator and passed in as a function parameter `toDt`.
Helper functions of the repository that live in `diplwmatikh/utils/` are not
part of the given sources; each such function is modelled from the
specification and carries a doc comment starting with "Modelled from the
spec:".  Python string primitives (endswith, slicing, replace, float(),
substring test) are modelled on `String.data`, i.e. on code-point lists,
which matches Python string semantics for the inputs involved.
-/

/-- Spreadsheet cell as produced by the tabular library: a string, a numeric
value (rationals stand in for the library's numbers), or the missing-value
marker NaN. -/
inductive Cell where
  | str : String → Cell
  | num : ℚ → Cell
  | nan : Cell
deriving DecidableEq, Repr

/-- Model of Python `s.endswith(t)` on code points. -/
def pyEndsWith (s t : String) : Bool := decide (t.data <:+ s.data)

/-- Model of Python `s[:-n]` (drop the last `n` code points). -/
def pyDropRight (s : String) (n : Nat) : String :=
  String.mk (s.data.take (s.data.length - n))

/-- Model of Python `t in s` (substring test) on code points. -/
def pyContains (s t : String) : Bool := decide (t.data <:+: s.data)

/-- Model of Python `s.replace(lt, empty)` for the less-than character: every
occurrence of the character is removed. -/
def pyRemoveLt (s : String) : String :=
  String.mk (s.data.filter (fun c => decide (c ≠ '<')))

/-- Rendering of a cell by `astype(str)` of the tabular library: strings stay
themselves, NaN renders as "nan", numbers render via their decimal notation
(stood in for by `toString`). -/
def cell_to_str : Cell → String
  | Cell.str s => s
  | Cell.num q => toString q
  | Cell.nan => "nan"

/-- Rendering of a whole row by `Series.to_string()`, used only for the
substring search `"Entry Point: X" in row.to_string()`: the marker occurs in
the rendering iff it occurs in the space-joined cell renderings. -/
def row_to_string (r : List Cell) : String :=
  String.intercalate " " (r.map cell_to_str)

/-- Numeral accumulation for decimal digit lists (Python int semantics). -/
def digitsToNat (ds : List Char) : Nat :=
  ds.foldl (fun a c => a * 10 + (c.toNat - 48)) 0

/-- Model of Python `float(s)` restricted to the shapes produced upstream:
an optional minus sign, a digit run, an optional fractional digit run, or the
literal "nan".  Anything else raises in Python, modelled as `none`. -/
def parse_float (s : String) : Option Cell :=
  if s = "nan" then some Cell.nan
  else
    let (neg, l) : Bool × List Char :=
      match s.data with
      | '-' :: t => (true, t)
      | l => (false, l)
    let intPart := l.takeWhile Char.isDigit
    let rest := l.dropWhile Char.isDigit
    if intPart = [] then none
    else
      match rest with
      | [] =>
          let q : ℚ := (digitsToNat intPart : ℚ)
          some (Cell.num (if neg then -q else q))
      | '.' :: frac =>
          if frac ≠ [] ∧ frac.all Char.isDigit then
            let q : ℚ := (digitsToNat intPart : ℚ) +
              (digitsToNat frac : ℚ) / ((10 : ℚ) ^ frac.length)
            some (Cell.num (if neg then -q else q))
          else none
      | _ => none

/-- Modelled from the spec: `replace_dash_with_nan` from
`diplwmatikh/utils/common.py` (not under src/) maps a dash placeholder cell to
the missing-value marker and leaves every other cell unchanged ("a placeholder
character (dash) in a cell means no data and must map to a missing-value
marker, not to zero or a string"). -/
def replace_dash_with_nan (c : Cell) : Cell :=
  if c = Cell.str "-" then Cell.nan else c

/-- Error message raised on a failed spreadsheet fetch
(`desfa.py`, the `raise Exception(...)` branches). -/
def fetch_err (status : Nat) : String :=
  "Failed to fetch the file, status code: " ++ toString status

/-- One row of the long-format output of the wide-to-long reshapers
(`desfa_flows_daily`, `desfa_ng_gcv_daily`). -/
structure LongRow where
  timestamp : Cell
  point_id : String
  point_type : String
  value : Cell
deriving DecidableEq, Repr

/-- Suffix tagging of the header labels (`desfa.py` lines 62 and 254): the
first 4 labels receive "_entry", the remainder receive "_exit". -/
def add_suffixes (hs : List String) : List String :=
  (hs.take 4).map (fun x => x ++ "_entry") ++ (hs.drop 4).map (fun x => x ++ "_exit")

/-- Suffix removal (`remove_suffix` in `desfa.py`). -/
def remove_suffix (point : String) : String :=
  if pyEndsWith point "_entry" then pyDropRight point 6 else pyDropRight point 5

/-- Entry/exit labelling from the tag (`label_point_as_entry_or_exit` in
`desfa.py`). -/
def label_point_as_entry_or_exit (point : String) : String :=
  if pyEndsWith point "_entry" then "entry" else "exit"

/-- Cleaning steps of `desfa_flows_daily` (lines 54-56): drop column 5, drop
the first 3 rows, drop rows whose first cell renders to a string containing
the aggregate marker. -/
def desfa_wide_clean_flows (sheet : List (List Cell)) : List (List Cell) :=
  (((sheet.map (fun r => r.eraseIdx 5)).drop 3).filter
    (fun r => !(pyContains (cell_to_str (r.headD Cell.nan)) "ΣΥΝΟΛΟ")))

/-- Cleaning steps of `desfa_ng_gcv_daily` (lines 243-247): drop column 5,
drop the first 3 rows, drop the last column and the last 4 rows. -/
def desfa_wide_clean_gcv (sheet : List (List Cell)) : List (List Cell) :=
  let d2 := ((sheet.map (fun r => r.eraseIdx 5)).drop 3).map (fun r => r.dropLast)
  d2.take (d2.length - 4)

/-- Header labels of the cleaned wide table: first row, all cells barring the
first (`new_headers = df.iloc[0, 1:].tolist()`). -/
def declared_headers (cleaned : List (List Cell)) : List String :=
  ((cleaned.headD []).drop 1).map cell_to_str

/-- The wide-to-long reshaping shared by `desfa_flows_daily` and
`desfa_ng_gcv_daily` (lines 60-102 / 252-296): tag the headers, drop the
header row, parse the leading column with `toDt`, melt column-major into long
format, derive `point_type` from the tag and strip the tag off `point_id`. -/
def reshape_long (toDt : Cell → Cell) (cleaned : List (List Cell)) : List LongRow :=
  let hs := add_suffixes (declared_headers cleaned)
  let dataRows := cleaned.drop 1
  (List.range hs.length).flatMap (fun j =>
    dataRows.map (fun r =>
      { timestamp := toDt (r.headD Cell.nan)
        point_id := remove_suffix (hs.getD j "")
        point_type := label_point_as_entry_or_exit (hs.getD j "")
        value := r.getD (j + 1) Cell.nan }))

/-- The asset `desfa_flows_daily` (lines 42-105): on HTTP status 200 the sheet
is cleaned and reshaped, otherwise the run aborts with the fetch error.  No
dash replacement occurs in this asset. -/
def desfa_flows_daily (toDt : Cell → Cell) (status : Nat)
    (sheet : List (List Cell)) : Except String (List LongRow) :=
  if status = 200 then
    Except.ok (reshape_long toDt (desfa_wide_clean_flows sheet))
  else
    Except.error (fetch_err status)

/-- The asset `desfa_ng_gcv_daily` (lines 230-301): like the flows asset but
with its own cleaning, and with `replace_dash_with_nan` mapped over the value
column at the end (line 298). -/
def desfa_ng_gcv_daily (toDt : Cell → Cell) (status : Nat)
    (sheet : List (List Cell)) : Except String (List LongRow) :=
  if status = 200 then
    Except.ok ((reshape_long toDt (desfa_wide_clean_gcv sheet)).map
      (fun r => { r with value := replace_dash_with_nan r.value }))
  else
    Except.error (fetch_err status)

/-- Projection of a long table to its composite-key triples. -/
def triples (l : List LongRow) : List (Cell × String × String) :=
  l.map (fun r => (r.timestamp, r.point_id, r.point_type))

/-- Log messages of the quality asset: the initial info line and the
per-missing-point warnings. -/
inductive QLog where
  | info : String → QLog
  | warning : String → QLog
deriving DecidableEq, Repr

/-- Whether a quality-asset log message is a warning. -/
def QLog.isWarn : QLog → Bool
  | QLog.info _ => false
  | QLog.warning _ => true

/-- The fixed entry-point list of `desfa.py` (line 31). -/
def entry_points : List String :=
  ["AGIA TRIADA", "SIDIROKASTRO", "KIPI", "NEA MESIMVRIA"]

/-- One row of an assembled quality block: the parsed timestamp, the inserted
point-identifier cell, and the 15 named value columns (c1, c2, c3, i_c4,
n_c4, i_c5, n_c5, neo_c5, c6_plus, n2, co2, gross_heating_value, wobbe_index,
water_dew_point, hydrocarbon_dew_point_max), the last of which sits at
index 14 of `vals`. -/
structure QRow where
  timestamp : Cell
  point_id : Cell
  vals : List Cell
deriving DecidableEq, Repr

/-- Sequenced column conversion: `astype(np.float64)` applied cell-wise, where
any unconvertible cell raises in Python (modelled as `none`). -/
def astype_float : List Cell → Option (List Cell)
  | [] => some []
  | c :: cs =>
    match parse_float (pyRemoveLt (cell_to_str c)), astype_float cs with
    | some c2, some cs2 => some (c2 :: cs2)
    | _, _ => none

/-- The hydrocarbon_dew_point_max column treatment (`desfa.py` lines 184-187):
if the column holds any string cell (the dtype-object test), every cell is
rendered to a string, has its less-than characters removed, and is parsed back
to a float; otherwise the column is left unchanged. -/
def hcdp_transform (col : List Cell) : Option (List Cell) :=
  if col.any (fun c => match c with | Cell.str _ => true | _ => false) then
    astype_float col
  else some col

/-- Block assembly for one entry point (`desfa.py` lines 165-187): slice the
first 16 columns (missing cells read as NaN, matching the padding of the
tabular reader), parse the leading column with `toDt`, insert the point
identifier, map `replace_dash_with_nan` over every data cell, then apply the
hydrocarbon_dew_point_max treatment to that single column. -/
def process_block (toDt : Cell → Cell) (p : String)
    (rows : List (List Cell)) : Option (List QRow) :=
  let vals0 : List (List Cell) := rows.map (fun r =>
    (List.range 15).map (fun j => replace_dash_with_nan (r.getD (j + 1) Cell.nan)))
  let hcol : List Cell := vals0.map (fun v => v.getD 14 Cell.nan)
  (hcdp_transform hcol).map (fun hcol2 =>
    (List.range rows.length).map (fun i =>
      { timestamp := toDt ((rows.getD i []).getD 0 Cell.nan)
        point_id := replace_dash_with_nan (Cell.str p)
        vals := (vals0.getD i []).set 14 (hcol2.getD i Cell.nan) }))

/-- Marker search for one entry point (`desfa.py` lines 151-156): the index of
the first row whose rendering contains "Entry Point: X", plus 3. -/
def quality_find_start (full : List (List Cell)) (p : String) : Option Nat :=
  (full.findIdx? (fun r => pyContains (row_to_string r) ("Entry Point: " ++ p))).map
    (fun i => i + 3)

/-- Row slice for one entry point (`desfa.py` lines 158-165): from the start
row up to `min (start + (currentYear - y0) + 1) length`, where the start year
y0 is 2021 for NEA MESIMVRIA and 2008 otherwise. -/
def quality_block_rows (full : List (List Cell)) (currentYear : Nat) (p : String)
    (startRow : Nat) : List (List Cell) :=
  let y0 : Nat := if pyContains p "NEA MESIMVRIA" then 2021 else 2008
  let endRow := min (startRow + (currentYear - y0) + 1) full.length
  (full.drop startRow).take (endRow - startRow)

/-- The per-point loop of `desfa_ng_quality_yearly` (lines 149-192): found
points contribute their block, missing points contribute one warning; an
unconvertible hydrocarbon_dew_point_max column aborts the run as in Python. -/
def quality_loop (toDt : Cell → Cell) (currentYear : Nat)
    (full : List (List Cell)) : List String → List QLog × Except String (List (List QRow))
  | [] => ([], Except.ok [])
  | p :: ps =>
    match quality_find_start full p with
    | some sr =>
      match process_block toDt p (quality_block_rows full currentYear p sr) with
      | some blk =>
        let rest := quality_loop toDt currentYear full ps
        (rest.1, rest.2.map (fun blks => blk :: blks))
      | none => ([], Except.error "could not convert string to float")
    | none =>
      let rest := quality_loop toDt currentYear full ps
      (QLog.warning ("No data found for entry point '" ++ p ++ "'") :: rest.1, rest.2)

/-- The asset `desfa_ng_quality_yearly` (lines 135-200): logs the initial info
line, aborts with the fetch error on a non-200 status, otherwise runs the
per-point loop and concatenates all found blocks; concatenating zero blocks
raises the ValueError of the tabular library. -/
def desfa_ng_quality_yearly (toDt : Cell → Cell) (currentYear : Nat) (status : Nat)
    (full : List (List Cell)) : List QLog × Except String (List QRow) :=
  if status = 200 then
    let r := quality_loop toDt currentYear full entry_points
    match r.2 with
    | Except.error e => (QLog.info "Handling single partition." :: r.1, Except.error e)
    | Except.ok blks =>
      if blks = [] then
        (QLog.info "Handling single partition." :: r.1,
         Except.error "No objects to concatenate")
      else
        (QLog.info "Handling single partition." :: r.1, Except.ok blks.flatten)
  else ([QLog.info "Handling single partition."], Except.error (fetch_err status))

/-- The blocks the quality asset assembles: one per entry point whose marker
is found and whose block converts, in the fixed entry-point order. -/
def quality_found_blocks (toDt : Cell → Cell) (currentYear : Nat)
    (full : List (List Cell)) : List (List QRow) :=
  entry_points.filterMap (fun p =>
    (quality_find_start full p).bind (fun sr =>
      process_block toDt p (quality_block_rows full currentYear p sr)))

/-- One raw observation as returned by the remote data API, before renaming:
the data kind indicator, the period start as an abstract instant (day index),
the direction, the point label, the reporting operator, and the value (null is
`none`, the empty string is `some ""`). -/
structure ERawRow where
  indicator : String
  period_from : Nat
  direction_key : String
  point_label : String
  operator_key : String
  value : Option String
deriving DecidableEq, Repr

/-- One row of the long-format partition table of the windowed assets, after
renaming (period start becomes timestamp, point label becomes point_id,
direction becomes point_type). -/
structure ERow where
  timestamp : Nat
  point_id : String
  point_type : String
  value : Option String
deriving DecidableEq, Repr

/-- Log messages of the windowed assets: per-sub-window info lines and the
single duplicate-key warning carrying the offending rows. -/
inductive ELog where
  | info : String → ELog
  | warnDuplicates : List ERow → ELog
deriving DecidableEq, Repr

/-- Whether a windowed-asset log message is a warning. -/
def ELog.isWarn : ELog → Bool
  | ELog.info _ => false
  | ELog.warnDuplicates _ => true

/-- Modelled from the spec: `entsog_utils.entsog_api_call_with_retries` from
`diplwmatikh/utils/entsog_utils.py` (not under src/) queries the remote API
for observations of the requested kinds whose period lies inside the
inclusive request window; the remote dataset is abstracted as the list `db`,
and the bounded retries are invisible in a deterministic model. -/
def entsog_api_call_with_retries (db : List ERawRow) (fromD toD : Nat)
    (kinds : List String) : List ERawRow :=
  db.filter (fun r =>
    decide (r.indicator ∈ kinds ∧ fromD ≤ r.period_from ∧ r.period_from ≤ toD))

/-- Modelled from the spec: `entsog_utils.label_potential_duplicates_with_tso`
(not under src/) disambiguates rows that could represent the same point from
two different reporting operators by tagging the point label with the operator
identity; the fixed set of such ambiguous point labels is the parameter
`ambiguous`. -/
def label_potential_duplicates_with_tso (ambiguous : List String)
    (rows : List ERawRow) : List ERawRow :=
  rows.map (fun r =>
    if r.point_label ∈ ambiguous then
      { r with point_label := r.point_label ++ " (" ++ r.operator_key ++ ")" }
    else r)

/-- Modelled from the spec: `sanitize_df` from `diplwmatikh/utils/common.py`
(not under src/) normalizes the timestamp to a tz-naive UTC representation;
on abstract instants this change of representation is the identity. -/
def sanitize_df (t : Nat) : Nat := t

/-- Per-sub-window processing shared by the four windowed assets
(`entsog.py` lines 39-54 and their copies): TSO-labelling, renaming to the
canonical schema, timestamp normalization, and dropping rows whose value is
the empty string or null. -/
def process_subwindow (ambiguous : List String) (raw : List ERawRow) : List ERow :=
  let labeled := label_potential_duplicates_with_tso ambiguous raw
  let renamed : List ERow := labeled.map (fun r =>
    { timestamp := sanitize_df r.period_from
      point_id := r.point_label
      point_type := r.direction_key
      value := r.value })
  (renamed.filter (fun r => decide (r.value ≠ some ""))).filter
    (fun r => decide (r.value ≠ none))

/-- The sub-window start days `pd.date_range(start, end, freq := two days)`
(`entsog.py` lines 29/85/140/195): start, start+2, ... up to the last such
day not after end. -/
def date_range_2D (s e : Nat) : List Nat :=
  if s ≤ e then (List.range ((e - s) / 2 + 1)).map (fun i => s + 2 * i) else []

/-- The request windows issued for a partition: each start day spans the
inclusive window from the day to the day after. -/
def entsog_requests (s e : Nat) : List (Nat × Nat) :=
  (date_range_2D s e).map (fun d => (d, d + 1))

/-- The fetch loop shared by the four windowed assets (`entsog.py`
lines 31-55): each sub-window with a non-empty fetch contributes an info line
and its processed table; empty fetches are skipped. -/
def entsog_loop (kinds ambiguous : List String) (db : List ERawRow) :
    List Nat → List ELog × List (List ERow)
  | [] => ([], [])
  | d :: rest =>
    let data := entsog_api_call_with_retries db d (d + 1) kinds
    let acc := entsog_loop kinds ambiguous db rest
    if data = [] then acc
    else
      (ELog.info ("Fetched data from " ++ toString d ++ " to " ++ toString (d + 1)) :: acc.1,
       process_subwindow ambiguous data :: acc.2)

/-- The composite key of a long row. -/
def ekey (r : ERow) : Nat × String × String := (r.timestamp, r.point_id, r.point_type)

/-- Uniqueness of the composite key over a table (`complete_data.index.is_unique`). -/
def isUniqueKeys (rows : List ERow) : Bool := decide ((rows.map ekey).Nodup)

/-- Mark of `index.duplicated(keep := False)`: a row is marked iff its key
occurs more than once in the table. -/
def duplicatedMark (rows : List ERow) (r : ERow) : Bool :=
  decide (1 < (rows.map ekey).count (ekey r))

/-- The windowed-asset body shared by `entsog_flows_daily`,
`entsog_nominations_daily`, `entsog_allocations_daily` and
`entsog_renominations_daily` (`entsog.py` lines 22-68 and their copies):
fetch every 2-day sub-window, concatenate the processed tables, return the
explicit absent marker when no sub-window had data, and log a single warning
listing the offending rows when the composite key is not unique — without
removing any row. -/
def entsog_windowed_asset (kinds ambiguous : List String) (db : List ERawRow)
    (s e : Nat) : List ELog × Option (List ERow) :=
  let acc := entsog_loop kinds ambiguous db (date_range_2D s e)
  if acc.2 = [] then (acc.1, none)
  else
    let complete := acc.2.flatten
    if isUniqueKeys complete then (acc.1, some complete)
    else (acc.1 ++ [ELog.warnDuplicates (complete.filter (duplicatedMark complete))],
          some complete)

/-- The asset `entsog_flows_daily` (lines 22-68). -/
def entsog_flows_daily (ambiguous : List String) (db : List ERawRow) (s e : Nat) :
    List ELog × Option (List ERow) :=
  entsog_windowed_asset ["physical_flow"] ambiguous db s e

/-- The asset `entsog_nominations_daily` (lines 78-123). -/
def entsog_nominations_daily (ambiguous : List String) (db : List ERawRow) (s e : Nat) :
    List ELog × Option (List ERow) :=
  entsog_windowed_asset ["nomination"] ambiguous db s e

/-- The asset `entsog_allocations_daily` (lines 133-178). -/
def entsog_allocations_daily (ambiguous : List String) (db : List ERawRow) (s e : Nat) :
    List ELog × Option (List ERow) :=
  entsog_windowed_asset ["allocation"] ambiguous db s e

/-- The asset `entsog_renominations_daily` (lines 188-234). -/
def entsog_renominations_daily (ambiguous : List String) (db : List ERawRow) (s e : Nat) :
    List ELog × Option (List ERow) :=
  entsog_windowed_asset ["renomination"] ambiguous db s e

/-- The single-query reshape of a whole partition: the per-sub-window
processing applied to the unsplit fetch over the partition window, used to
state the split/unsplit round-trip property. -/
def entsog_unsplit (kinds ambiguous : List String) (db : List ERawRow)
    (s e : Nat) : List ERow :=
  process_subwindow ambiguous (entsog_api_call_with_retries db s e kinds)

/-! ### Helper lemmas on the Python string model -/

theorem pyEndsWith_append_entry (h : String) :
    pyEndsWith (h ++ "_entry") "_entry" = true := by
  unfold pyEndsWith
  rw [decide_eq_true_iff, String.data_append]
  exact List.suffix_append h.data _

theorem pyEndsWith_append_exit (h : String) :
    pyEndsWith (h ++ "_exit") "_entry" = false := by
  unfold pyEndsWith
  rw [decide_eq_false_iff_not, String.data_append]
  intro hs
  rcases hs with ⟨t, ht⟩
  have hl : (t ++ "_entry".data).getLast? = some 'y' := by
    rw [List.getLast?_append_of_ne_nil t (by decide)]
    rfl
  have hr : (h.data ++ "_exit".data).getLast? = some 't' := by
    rw [List.getLast?_append_of_ne_nil h.data (by decide)]
    rfl
  rw [ht, hr] at hl
  exact absurd hl (by decide)

theorem pyDropRight_append (h t : String) :
    pyDropRight (h ++ t) t.data.length = h := by
  unfold pyDropRight
  rw [String.data_append]
  have hlen : (h.data ++ t.data).length - t.data.length = h.data.length := by
    rw [List.length_append]; omega
  rw [hlen, List.take_left]

theorem remove_suffix_entry (h : String) : remove_suffix (h ++ "_entry") = h := by
  unfold remove_suffix
  rw [pyEndsWith_append_entry]
  simpa using pyDropRight_append h "_entry"

theorem remove_suffix_exit (h : String) : remove_suffix (h ++ "_exit") = h := by
  unfold remove_suffix
  rw [pyEndsWith_append_exit]
  simpa using pyDropRight_append h "_exit"

theorem label_append_entry (h : String) :
    label_point_as_entry_or_exit (h ++ "_entry") = "entry" := by
  unfold label_point_as_entry_or_exit
  rw [pyEndsWith_append_entry]
  rfl

theorem label_append_exit (h : String) :
    label_point_as_entry_or_exit (h ++ "_exit") = "exit" := by
  unfold label_point_as_entry_or_exit
  rw [pyEndsWith_append_exit]
  rfl

theorem length_add_suffixes (hs : List String) :
    (add_suffixes hs).length = hs.length := by
  unfold add_suffixes
  rw [List.length_append, List.length_map, List.length_map, List.length_take,
    List.length_drop]
  omega

theorem add_suffixes_getD (hs : List String) (j : Nat) (hj : j < hs.length) :
    (add_suffixes hs).getD j "" =
      hs.getD j "" ++ (if j < 4 then "_entry" else "_exit") := by
  rw [List.getD_eq_getElem?_getD, List.getD_eq_getElem?_getD,
    show add_suffixes hs = (hs.take 4).map (fun x => x ++ "_entry") ++
      (hs.drop 4).map (fun x => x ++ "_exit") from rfl]
  by_cases h4 : j < 4
  · have hjt : j < ((hs.take 4).map (fun x => x ++ "_entry")).length := by
      simp [List.length_take]; omega
    rw [List.getElem?_append_left hjt, List.getElem?_map, List.getElem?_take,
      if_pos h4, List.getElem?_eq_getElem hj]
    simp [h4]
  · have hlt : ((hs.take 4).map (fun x => x ++ "_entry")).length = 4 := by
      simp [List.length_take]; omega
    rw [List.getElem?_append_right (by omega :
        ((hs.take 4).map (fun x => x ++ "_entry")).length ≤ j),
      List.getElem?_map, hlt, List.getElem?_drop,
      show 4 + (j - 4) = j from by omega, List.getElem?_eq_getElem hj]
    simp [h4]

theorem remove_suffix_add_suffixes (hs : List String) (j : Nat) (hj : j < hs.length) :
    remove_suffix ((add_suffixes hs).getD j "") = hs.getD j "" := by
  rw [add_suffixes_getD hs j hj]
  by_cases h4 : j < 4
  · simp [h4, remove_suffix_entry]
  · simp [h4, remove_suffix_exit]

theorem label_add_suffixes (hs : List String) (j : Nat) (hj : j < hs.length) :
    label_point_as_entry_or_exit ((add_suffixes hs).getD j "") =
      if j < 4 then "entry" else "exit" := by
  rw [add_suffixes_getD hs j hj]
  by_cases h4 : j < 4
  · simp [h4, label_append_entry]
  · simp [h4, label_append_exit]

theorem triples_map_value (f : Cell → Cell) (l : List LongRow) :
    triples (l.map (fun r => { r with value := f r.value })) = triples l := by
  unfold triples
  rw [List.map_map]
  rfl

theorem triples_reshape (toDt : Cell → Cell) (cleaned : List (List Cell))
    (tr : Cell × String × String) :
    tr ∈ triples (reshape_long toDt cleaned) ↔
      ∃ r ∈ cleaned.drop 1, ∃ j,
        j < (declared_headers cleaned).length ∧
        tr = (toDt (r.headD Cell.nan), (declared_headers cleaned).getD j "",
              if j < 4 then "entry" else "exit") := by
  constructor
  · intro htr
    rcases List.mem_map.mp htr with ⟨row, hrow, hproj⟩
    rcases List.mem_flatMap.mp hrow with ⟨j, hj, hrow2⟩
    rcases List.mem_map.mp hrow2 with ⟨r, hr, hfr⟩
    have hjlt : j < (declared_headers cleaned).length := by
      have := List.mem_range.mp hj
      rwa [length_add_suffixes] at this
    refine ⟨r, hr, j, hjlt, ?_⟩
    rw [← hproj, ← hfr]
    dsimp only
    rw [remove_suffix_add_suffixes _ _ hjlt, label_add_suffixes _ _ hjlt]
  · rintro ⟨r, hr, j, hjlt, htr⟩
    apply List.mem_map.mpr
    refine ⟨{ timestamp := toDt (r.headD Cell.nan)
              point_id := remove_suffix ((add_suffixes (declared_headers cleaned)).getD j "")
              point_type := label_point_as_entry_or_exit
                ((add_suffixes (declared_headers cleaned)).getD j "")
              value := r.getD (j + 1) Cell.nan }, ?_, ?_⟩
    · apply List.mem_flatMap.mpr
      refine ⟨j, List.mem_range.mpr (by rw [length_add_suffixes]; exact hjlt), ?_⟩
      exact List.mem_map.mpr ⟨r, hr, rfl⟩
    · rw [htr]
      dsimp only
      rw [remove_suffix_add_suffixes _ _ hjlt, label_add_suffixes _ _ hjlt]

/-- C1: for both wide-to-long reshapers (`desfa_flows_daily` and
`desfa_ng_gcv_daily`), the set of (timestamp, point_id, point_type) triples of
the long output is exactly the cross product of the retained data rows and
the declared point columns, with point_type determined solely by column
position: the first 4 data columns are labelled "entry", the rest "exit".
The width hypotheses delimit the sheets on which the list model coincides
with the tabular library (at least 6 columns, rectangular). -/
theorem desfa_reshape_cross_product
    (toDt : Cell → Cell) (sheet : List (List Cell)) (W : Nat)
    (out1 out2 : List LongRow)
    (hW : 6 ≤ W) (hrect : ∀ r ∈ sheet, r.length = W)
    (h1 : desfa_flows_daily toDt 200 sheet = Except.ok out1)
    (h2 : desfa_ng_gcv_daily toDt 200 sheet = Except.ok out2) :
    (∀ tr, tr ∈ triples out1 ↔
      ∃ r ∈ (desfa_wide_clean_flows sheet).drop 1, ∃ j,
        j < (declared_headers (desfa_wide_clean_flows sheet)).length ∧
        tr = (toDt (r.headD Cell.nan),
              (declared_headers (desfa_wide_clean_flows sheet)).getD j "",
              if j < 4 then "entry" else "exit"))
    ∧ (∀ tr, tr ∈ triples out2 ↔
      ∃ r ∈ (desfa_wide_clean_gcv sheet).drop 1, ∃ j,
        j < (declared_headers (desfa_wide_clean_gcv sheet)).length ∧
        tr = (toDt (r.headD Cell.nan),
              (declared_headers (desfa_wide_clean_gcv sheet)).getD j "",
              if j < 4 then "entry" else "exit")) := by
  have e1 : out1 = reshape_long toDt (desfa_wide_clean_flows sheet) := by
    have := h1
    unfold desfa_flows_daily at this
    simpa using this.symm
  have e2 : out2 = (reshape_long toDt (desfa_wide_clean_gcv sheet)).map
      (fun r => { r with value := replace_dash_with_nan r.value }) := by
    have := h2
    unfold desfa_ng_gcv_daily at this
    simpa using this.symm
  constructor
  · intro tr
    rw [e1]
    exact triples_reshape toDt (desfa_wide_clean_flows sheet) tr
  · intro tr
    rw [e2, triples_map_value]
    exact triples_reshape toDt (desfa_wide_clean_gcv sheet) tr

/-- Concrete 7-column sheet used to witness the cross-product theorem. -/
def c1fixture : List (List Cell) :=
  [ [Cell.str "x", Cell.str "x", Cell.str "x", Cell.str "x", Cell.str "x", Cell.nan, Cell.str "x"],
    [Cell.str "x", Cell.str "x", Cell.str "x", Cell.str "x", Cell.str "x", Cell.nan, Cell.str "x"],
    [Cell.str "x", Cell.str "x", Cell.str "x", Cell.str "x", Cell.str "x", Cell.nan, Cell.str "x"],
    [Cell.str "ts", Cell.str "A", Cell.str "B", Cell.str "C", Cell.str "D", Cell.nan, Cell.str "E"],
    [Cell.str "2020", Cell.num 1, Cell.num 2, Cell.num 3, Cell.num 4, Cell.nan, Cell.num 5],
    [Cell.str "2021", Cell.num 6, Cell.num 7, Cell.num 8, Cell.num 9, Cell.nan, Cell.num 10],
    [Cell.str "y", Cell.num 0, Cell.num 0, Cell.num 0, Cell.num 0, Cell.nan, Cell.num 0],
    [Cell.str "y", Cell.num 0, Cell.num 0, Cell.num 0, Cell.num 0, Cell.nan, Cell.num 0],
    [Cell.str "y", Cell.num 0, Cell.num 0, Cell.num 0, Cell.num 0, Cell.nan, Cell.num 0],
    [Cell.str "y", Cell.num 0, Cell.num 0, Cell.num 0, Cell.num 0, Cell.nan, Cell.num 0] ]

/-- Witness for the cross-product theorem: its hypotheses hold on the
concrete fixture sheet and the characterization follows at a sample triple. -/
theorem desfa_reshape_cross_product_witness :
    6 ≤ 7 ∧ (∀ r ∈ c1fixture, r.length = 7) ∧
    ((Cell.str "2020", "A", "entry") ∈
        triples (reshape_long (fun c => c) (desfa_wide_clean_flows c1fixture)) ↔
      ∃ r ∈ (desfa_wide_clean_flows c1fixture).drop 1, ∃ j,
        j < (declared_headers (desfa_wide_clean_flows c1fixture)).length ∧
        (Cell.str "2020", "A", "entry") =
          (r.headD Cell.nan,
           (declared_headers (desfa_wide_clean_flows c1fixture)).getD j "",
           if j < 4 then "entry" else "exit")) :=
  ⟨by decide, by decide,
    (desfa_reshape_cross_product (fun c => c) c1fixture 7 _ _
      (by decide) (by decide) rfl rfl).1 (Cell.str "2020", "A", "entry")⟩

theorem replace_dash_with_nan_ne_dash (c : Cell) :
    replace_dash_with_nan c ≠ Cell.str "-" := by
  unfold replace_dash_with_nan
  by_cases h : c = Cell.str "-" <;> simp [h]

theorem parse_float_not_str (s : String) (c : Cell) (h : parse_float s = some c)
    (t : String) : c ≠ Cell.str t := by
  unfold parse_float at h
  split at h
  · cases h
    simp
  · dsimp only at h
    split at h
    · exact absurd h (by simp)
    · split at h
      · cases h
        split <;> simp
      · split at h
        · cases h
          split <;> simp
        · exact absurd h (by simp)
      · exact absurd h (by simp)

theorem astype_float_mem (col out : List Cell) (h : astype_float col = some out) :
    ∀ c ∈ out, ∃ c0 ∈ col, parse_float (pyRemoveLt (cell_to_str c0)) = some c := by
  induction col generalizing out with
  | nil =>
    cases h
    simp
  | cons x xs ih =>
    unfold astype_float at h
    split at h
    · cases h
      rename_i c2 cs2 hx hxs
      intro c hc
      rcases List.mem_cons.mp hc with hc | hc
      · exact ⟨x, List.mem_cons_self x xs, by rw [hx, hc]⟩
      · rcases ih cs2 hxs c hc with ⟨c0, hc0, hp⟩
        exact ⟨c0, List.mem_cons_of_mem x hc0, hp⟩
    · exact absurd h (by simp)

theorem hcdp_transform_no_dash (col out : List Cell)
    (hcol : ∀ c ∈ col, c ≠ Cell.str "-") (h : hcdp_transform col = some out) :
    ∀ c ∈ out, c ≠ Cell.str "-" := by
  unfold hcdp_transform at h
  split at h
  · intro c hc
    rcases astype_float_mem col out h c hc with ⟨c0, _, hp⟩
    exact parse_float_not_str _ _ hp "-"
  · cases h
    exact hcol

theorem mem_getD_map_mem {α β : Type} (l : List α) (f : α → List β) (i : Nat)
    (c : β) (hc : c ∈ (l.map f).getD i []) : ∃ a ∈ l, c ∈ f a := by
  by_cases h : i < (l.map f).length
  · rw [List.getD_eq_getElem _ _ h] at hc
    have hmem : (l.map f)[i] ∈ l.map f := List.getElem_mem h
    rcases List.mem_map.mp hmem with ⟨a, ha, hfa⟩
    refine ⟨a, ha, ?_⟩
    rw [← hfa] at hc
    exact hc
  · rw [List.getD_eq_getElem?_getD, List.getElem?_eq_none (by omega)] at hc
    simp at hc

theorem getD_mem_or {β : Type} (v : List β) (n : Nat) (d : β) :
    v.getD n d ∈ v ∨ v.getD n d = d := by
  by_cases h : n < v.length
  · left
    rw [List.getD_eq_getElem _ _ h]
    exact List.getElem_mem h
  · right
    rw [List.getD_eq_getElem?_getD, List.getElem?_eq_none (by omega)]
    rfl

theorem process_block_no_dash (toDt : Cell → Cell) (p : String)
    (rows : List (List Cell)) (out : List QRow)
    (h : process_block toDt p rows = some out) :
    ∀ q ∈ out, q.point_id ≠ Cell.str "-" ∧ ∀ c ∈ q.vals, c ≠ Cell.str "-" := by
  simp only [process_block] at h
  cases htr : hcdp_transform ((rows.map (fun r =>
      (List.range 15).map (fun j => replace_dash_with_nan (r.getD (j + 1) Cell.nan)))).map
      (fun v => v.getD 14 Cell.nan)) with
  | none => rw [htr] at h; cases h
  | some hcol2 =>
    rw [htr, Option.map_some'] at h
    cases h
    intro q hq
    rcases List.mem_map.mp hq with ⟨i, hi, hqi⟩
    have hvals0 : ∀ c ∈ ((rows.map (fun r =>
        (List.range 15).map (fun j => replace_dash_with_nan (r.getD (j + 1) Cell.nan)))).getD i []),
        c ≠ Cell.str "-" := by
      intro c hc
      rcases mem_getD_map_mem rows _ i c hc with ⟨r, _, hcr⟩
      rcases List.mem_map.mp hcr with ⟨j, _, hj⟩
      rw [← hj]
      exact replace_dash_with_nan_ne_dash _
    have hhcolmem : ∀ c ∈ hcol2, c ≠ Cell.str "-" := by
      apply hcdp_transform_no_dash _ _ _ htr
      intro c hc
      rcases List.mem_map.mp hc with ⟨v, hv, hvc⟩
      rcases List.mem_map.mp hv with ⟨r, _, hrv⟩
      rcases getD_mem_or v 14 Cell.nan with hm | hm
      · rw [← hrv] at hm
        rcases List.mem_map.mp hm with ⟨j, _, hj⟩
        rw [← hvc, ← hrv, ← hj]
        exact replace_dash_with_nan_ne_dash _
      · rw [← hvc, hm]
        simp
    constructor
    · rw [← hqi]
      exact replace_dash_with_nan_ne_dash _
    · intro c hc
      rw [← hqi] at hc
      dsimp only at hc
      rcases List.mem_or_eq_of_mem_set hc with hc | hc
      · exact hvals0 c hc
      · rcases getD_mem_or hcol2 i Cell.nan with hm | hm
        · rw [hc]
          exact hhcolmem _ hm
        · rw [hc, hm]
          simp

theorem quality_loop_blocks (toDt : Cell → Cell) (cy : Nat) (full : List (List Cell))
    (ps : List String) (blks : List (List QRow))
    (h : (quality_loop toDt cy full ps).2 = Except.ok blks) :
    ∀ blk ∈ blks, ∃ p sr, quality_find_start full p = some sr ∧
      process_block toDt p (quality_block_rows full cy p sr) = some blk := by
  induction ps generalizing blks with
  | nil =>
    simp only [quality_loop] at h
    cases h
    simp
  | cons p ps ih =>
    simp only [quality_loop] at h
    cases hf : quality_find_start full p with
    | some sr =>
      rw [hf] at h
      dsimp only at h
      cases hp : process_block toDt p (quality_block_rows full cy p sr) with
      | none =>
        rw [hp] at h
        cases h
      | some blk2 =>
        rw [hp] at h
        dsimp only at h
        cases hrest : (quality_loop toDt cy full ps).2 with
        | error e =>
          rw [hrest] at h
          cases h
        | ok tl =>
          rw [hrest] at h
          simp only [Except.map] at h
          cases h
          intro blk hblk
          rcases List.mem_cons.mp hblk with hblk | hblk
          · refine ⟨p, sr, hf, ?_⟩
            rw [hblk]
            exact hp
          · exact ih tl hrest blk hblk
    | none =>
      rw [hf] at h
      dsimp only at h
      exact ih blks h

theorem quality_ok_structure (toDt : Cell → Cell) (cy : Nat)
    (full : List (List Cell)) (qout : List QRow)
    (hq : (desfa_ng_quality_yearly toDt cy 200 full).2 = Except.ok qout) :
    ∃ blks, (quality_loop toDt cy full entry_points).2 = Except.ok blks ∧
      blks ≠ [] ∧ qout = blks.flatten := by
  simp only [desfa_ng_quality_yearly, eq_self_iff_true, if_true] at hq
  cases hr : (quality_loop toDt cy full entry_points).2 with
  | error e =>
    rw [hr] at hq
    cases hq
  | ok blks =>
    rw [hr] at hq
    dsimp only at hq
    by_cases hb : blks = []
    · rw [if_pos hb] at hq
      cases hq
    · rw [if_neg hb] at hq
      refine ⟨blks, rfl, hb, ?_⟩
      cases hq
      rfl

/-- Concrete 7-column sheet with a dash placeholder in a data cell, fed to
`desfa_flows_daily`. -/
def c2fixture : List (List Cell) :=
  [ [Cell.str "x", Cell.str "x", Cell.str "x", Cell.str "x", Cell.str "x", Cell.nan, Cell.str "x"],
    [Cell.str "x", Cell.str "x", Cell.str "x", Cell.str "x", Cell.str "x", Cell.nan, Cell.str "x"],
    [Cell.str "x", Cell.str "x", Cell.str "x", Cell.str "x", Cell.str "x", Cell.nan, Cell.str "x"],
    [Cell.str "ts", Cell.str "A", Cell.str "B", Cell.str "C", Cell.str "D", Cell.nan, Cell.str "E"],
    [Cell.str "2020", Cell.str "-", Cell.num 2, Cell.num 3, Cell.num 4, Cell.nan, Cell.num 5] ]

/-- C2 counterexample: `desfa_flows_daily` performs no dash replacement, so a
dash placeholder in the source survives as the string cell of the output,
refuting the claim for this asset. -/
theorem desfa_dash_counterexample :
    ∃ out, desfa_flows_daily (fun c => c) 200 c2fixture = Except.ok out ∧
      Cell.str "-" ∈ out.map LongRow.value :=
  ⟨_, rfl, by decide⟩

theorem getD_map_of_lt {α β : Type} (l : List α) (f : α → β) (i : Nat) (d : β) (d2 : α)
    (h : i < l.length) : (l.map f).getD i d = f (l.getD i d2) := by
  rw [List.getD_eq_getElem _ _ (by simpa using h), List.getD_eq_getElem _ _ h]
  simp

theorem getD_map_range {β : Type} (n j : Nat) (g : Nat → β) (d : β) (h : j < n) :
    ((List.range n).map g).getD j d = g j := by
  rw [getD_map_of_lt (List.range n) g j d 0 (by simpa using h)]
  congr 1
  rw [List.getD_eq_getElem _ _ (by simpa using h)]
  simp

theorem astype_float_getD (col out : List Cell) (h : astype_float col = some out) :
    out.length = col.length ∧ ∀ i, i < col.length →
      parse_float (pyRemoveLt (cell_to_str (col.getD i Cell.nan))) =
        some (out.getD i Cell.nan) := by
  induction col generalizing out with
  | nil =>
    cases h
    exact ⟨rfl, by intro i hi; cases hi⟩
  | cons x xs ih =>
    unfold astype_float at h
    split at h
    · rename_i c2 cs2 hx hxs
      cases h
      obtain ⟨hlen, hidx⟩ := ih cs2 hxs
      refine ⟨by simp [hlen], ?_⟩
      intro i hi
      cases i with
      | zero => simpa using hx
      | succ n => simpa using hidx n (by simpa using hi)
    · exact absurd h (by simp)

theorem quality_loop_ok_blocks (toDt : Cell → Cell) (cy : Nat)
    (full : List (List Cell)) (ps : List String) (blks : List (List QRow))
    (h : (quality_loop toDt cy full ps).2 = Except.ok blks) :
    blks = ps.filterMap (fun p => (quality_find_start full p).bind (fun sr =>
      process_block toDt p (quality_block_rows full cy p sr))) := by
  induction ps generalizing blks with
  | nil =>
    cases h
    rfl
  | cons p ps ih =>
    simp only [quality_loop] at h
    rw [List.filterMap_cons]
    cases hf : quality_find_start full p with
    | some sr =>
      rw [hf] at h
      dsimp only at h
      cases hp : process_block toDt p (quality_block_rows full cy p sr) with
      | none =>
        rw [hp] at h
        cases h
      | some blk =>
        rw [hp] at h
        dsimp only at h
        cases hrest : (quality_loop toDt cy full ps).2 with
        | error e =>
          rw [hrest] at h
          cases h
        | ok tl =>
          rw [hrest] at h
          simp only [Except.map] at h
          cases h
          rw [Option.some_bind, hp]
          dsimp only
          rw [← ih tl hrest]
    | none =>
      rw [hf] at h
      dsimp only at h
      rw [Option.none_bind]
      exact ih blks h

theorem process_block_dash_to_nan (toDt : Cell → Cell) (p : String)
    (rows : List (List Cell)) (out : List QRow) (i j : Nat)
    (hi : i < rows.length) (hj : j < 15)
    (hcell : (rows.getD i []).getD (j + 1) Cell.nan = Cell.str "-")
    (h : process_block toDt p rows = some out) :
    (out.getD i ⟨Cell.nan, Cell.nan, []⟩).vals.getD j Cell.nan = Cell.nan := by
  simp only [process_block] at h
  have hvi : (rows.map (fun r =>
      (List.range 15).map (fun j2 => replace_dash_with_nan (r.getD (j2 + 1) Cell.nan)))).getD i []
      = (List.range 15).map (fun j2 =>
          replace_dash_with_nan ((rows.getD i []).getD (j2 + 1) Cell.nan)) :=
    getD_map_of_lt rows _ i [] [] hi
  cases htr : hcdp_transform ((rows.map (fun r =>
      (List.range 15).map (fun j2 => replace_dash_with_nan (r.getD (j2 + 1) Cell.nan)))).map
      (fun v => v.getD 14 Cell.nan)) with
  | none =>
    rw [htr] at h
    cases h
  | some hcol2 =>
    rw [htr, Option.map_some'] at h
    cases h
    rw [getD_map_range rows.length i _ _ hi]
    dsimp only
    by_cases h14 : j = 14
    · subst h14
      have h14len : 14 < ((rows.map (fun r =>
          (List.range 15).map (fun j2 =>
            replace_dash_with_nan (r.getD (j2 + 1) Cell.nan)))).getD i []).length := by
        rw [hvi]
        simp
      have hcolA : ((rows.map (fun r =>
          (List.range 15).map (fun j2 => replace_dash_with_nan (r.getD (j2 + 1) Cell.nan)))).map
          (fun v => v.getD 14 Cell.nan)).getD i Cell.nan = Cell.nan := by
        rw [getD_map_of_lt _ _ i Cell.nan [] (by simpa using hi), hvi,
          getD_map_range 15 14 _ Cell.nan (by omega), hcell]
        rfl
      have hc2 : hcol2.getD i Cell.nan = Cell.nan := by
        unfold hcdp_transform at htr
        split at htr
        · obtain ⟨hlen, hidx⟩ := astype_float_getD _ _ htr
          have hix := hidx i (by simpa using hi)
          rw [hcolA] at hix
          rw [show parse_float (pyRemoveLt (cell_to_str Cell.nan)) = some Cell.nan
            from by decide] at hix
          injection hix with h2
          exact h2.symm
        · cases htr
          exact hcolA
      rw [List.getD_eq_getElem?_getD, List.getElem?_set_self (by omega), hc2]
      rfl
    · rw [List.getD_eq_getElem?_getD, List.getElem?_set_ne (by omega : (14 : Nat) ≠ j),
        ← List.getD_eq_getElem?_getD, hvi, getD_map_range 15 j _ Cell.nan hj, hcell]
      rfl

/-- C2 amended: dash placeholders are mapped to the missing-value marker in
`desfa_ng_gcv_daily` (every dash-valued long row resurfaces with a NaN value)
and in `desfa_ng_quality_yearly` (in every assembled block — whose rows all
belong to the returned table — a dash in any of the 15 value columns becomes
NaN at the same position, and no output cell of any column is a dash string);
`desfa_flows_daily` performs no dash replacement at all. -/
theorem desfa_dash_to_nan_amended
    (toDt : Cell → Cell) (sheet full : List (List Cell)) (currentYear : Nat)
    (out : List LongRow) (qout : List QRow)
    (hg : desfa_ng_gcv_daily toDt 200 sheet = Except.ok out)
    (hq : (desfa_ng_quality_yearly toDt currentYear 200 full).2 = Except.ok qout) :
    ((∀ r ∈ out, r.value ≠ Cell.str "-") ∧
     (∀ r ∈ reshape_long toDt (desfa_wide_clean_gcv sheet),
        r.value = Cell.str "-" → { r with value := Cell.nan } ∈ out)) ∧
    (∀ q ∈ qout, q.point_id ≠ Cell.str "-" ∧ ∀ c ∈ q.vals, c ≠ Cell.str "-") ∧
    (∀ p ∈ entry_points, ∀ sr, quality_find_start full p = some sr →
      ∀ blk, process_block toDt p (quality_block_rows full currentYear p sr) = some blk →
        (∀ q ∈ blk, q ∈ qout) ∧
        (∀ i j, i < (quality_block_rows full currentYear p sr).length → j < 15 →
          ((quality_block_rows full currentYear p sr).getD i []).getD (j + 1) Cell.nan =
            Cell.str "-" →
          (blk.getD i ⟨Cell.nan, Cell.nan, []⟩).vals.getD j Cell.nan = Cell.nan)) := by
  have e2 : out = (reshape_long toDt (desfa_wide_clean_gcv sheet)).map
      (fun r => { r with value := replace_dash_with_nan r.value }) := by
    have h := hg
    unfold desfa_ng_gcv_daily at h
    simpa using h.symm
  refine ⟨⟨?_, ?_⟩, ?_, ?_⟩
  · intro r hr
    rw [e2] at hr
    rcases List.mem_map.mp hr with ⟨r0, _, hr0⟩
    rw [← hr0]
    exact replace_dash_with_nan_ne_dash _
  · intro r hr hval
    rw [e2]
    apply List.mem_map.mpr
    refine ⟨r, hr, ?_⟩
    rw [hval]
    rfl
  · intro q hq2
    rcases quality_ok_structure toDt currentYear full qout hq with ⟨blks, hloop, _, hflat⟩
    rw [hflat] at hq2
    rcases List.mem_flatten.mp hq2 with ⟨blk, hblk, hqblk⟩
    rcases quality_loop_blocks toDt currentYear full entry_points blks hloop blk hblk
      with ⟨p, sr, _, hp⟩
    exact process_block_no_dash toDt p _ blk hp q hqblk
  · intro p hp sr hf blk hpb
    constructor
    · rcases quality_ok_structure toDt currentYear full qout hq with ⟨blks, hloop, _, hflat⟩
      have hfm := quality_loop_ok_blocks toDt currentYear full entry_points blks hloop
      intro q hqblk
      rw [hflat]
      apply List.mem_flatten.mpr
      refine ⟨blk, ?_, hqblk⟩
      rw [hfm]
      apply List.mem_filterMap.mpr
      exact ⟨p, hp, by rw [hf, Option.some_bind]; exact hpb⟩
    · intro i j hi hj hcell
      exact process_block_dash_to_nan toDt p _ blk i j hi hj hcell hpb

/-- Concrete 7-column sheet with a dash value cell, fed to `desfa_ng_gcv_daily`. -/
def c2gfixture : List (List Cell) :=
  [ [Cell.str "x", Cell.str "x", Cell.str "x", Cell.str "x", Cell.str "x", Cell.nan, Cell.str "x"],
    [Cell.str "x", Cell.str "x", Cell.str "x", Cell.str "x", Cell.str "x", Cell.nan, Cell.str "x"],
    [Cell.str "x", Cell.str "x", Cell.str "x", Cell.str "x", Cell.str "x", Cell.nan, Cell.str "x"],
    [Cell.str "ts", Cell.str "A", Cell.str "B", Cell.str "C", Cell.str "D", Cell.nan, Cell.str "E"],
    [Cell.str "2020", Cell.str "-", Cell.num 2, Cell.num 3, Cell.num 4, Cell.nan, Cell.num 5],
    [Cell.str "y", Cell.num 0, Cell.num 0, Cell.num 0, Cell.num 0, Cell.nan, Cell.num 0],
    [Cell.str "y", Cell.num 0, Cell.num 0, Cell.num 0, Cell.num 0, Cell.nan, Cell.num 0],
    [Cell.str "y", Cell.num 0, Cell.num 0, Cell.num 0, Cell.num 0, Cell.nan, Cell.num 0],
    [Cell.str "y", Cell.num 0, Cell.num 0, Cell.num 0, Cell.num 0, Cell.nan, Cell.num 0] ]

/-- Concrete quality sheet with a dash value cell, fed to
`desfa_ng_quality_yearly`. -/
def c2qfixture : List (List Cell) :=
  [ [Cell.str "Entry Point: AGIA TRIADA", Cell.nan],
    [Cell.nan], [Cell.nan],
    [Cell.str "2008", Cell.str "-", Cell.num 2, Cell.num 3, Cell.num 4, Cell.num 5, Cell.num 6,
     Cell.num 7, Cell.num 8, Cell.num 9, Cell.num 10, Cell.num 11, Cell.num 12, Cell.num 13,
     Cell.num 14, Cell.num 15] ]

/-- Witness for the amended dash theorem on concrete sheets: the dash in the
first value column of the found block becomes NaN at the same position. -/
theorem desfa_dash_to_nan_amended_witness :
    (∃ out, desfa_ng_gcv_daily (fun c => c) 200 c2gfixture = Except.ok out ∧
       ∀ r ∈ out, r.value ≠ Cell.str "-") ∧
    (∃ qout, (desfa_ng_quality_yearly (fun c => c) 2025 200 c2qfixture).2 = Except.ok qout ∧
       (∀ q ∈ qout, q.point_id ≠ Cell.str "-" ∧ ∀ c ∈ q.vals, c ≠ Cell.str "-") ∧
       ∃ blk, process_block (fun c => c) "AGIA TRIADA"
           (quality_block_rows c2qfixture 2025 "AGIA TRIADA" 3) = some blk ∧
         (blk.getD 0 ⟨Cell.nan, Cell.nan, []⟩).vals.getD 0 Cell.nan = Cell.nan) :=
  ⟨⟨_, rfl, ((desfa_dash_to_nan_amended (fun c => c) c2gfixture c2qfixture 2025 _ _
      rfl rfl).1).1⟩,
   ⟨_, rfl, (desfa_dash_to_nan_amended (fun c => c) c2gfixture c2qfixture 2025 _ _
      rfl rfl).2.1,
    ⟨_, rfl, ((desfa_dash_to_nan_amended (fun c => c) c2gfixture c2qfixture 2025 _ _
      rfl rfl).2.2 "AGIA TRIADA" (by decide) 3 (by decide) _ rfl).2 0 0
        (by decide) (by decide) (by decide)⟩⟩⟩

theorem quality_loop_error (toDt : Cell → Cell) (cy : Nat) (full : List (List Cell))
    (ps : List String) (e : String)
    (h : (quality_loop toDt cy full ps).2 = Except.error e) :
    e = "could not convert string to float" := by
  induction ps with
  | nil => simp [quality_loop] at h
  | cons p ps ih =>
    simp only [quality_loop] at h
    cases hf : quality_find_start full p with
    | some sr =>
      rw [hf] at h
      dsimp only at h
      cases hp : process_block toDt p (quality_block_rows full cy p sr) with
      | none =>
        rw [hp] at h
        cases h
        rfl
      | some blk =>
        rw [hp] at h
        dsimp only at h
        cases hrest : (quality_loop toDt cy full ps).2 with
        | error e2 =>
          rw [hrest] at h
          simp only [Except.map] at h
          cases h
          exact ih hrest
        | ok tl =>
          rw [hrest] at h
          simp [Except.map] at h
    | none =>
      rw [hf] at h
      dsimp only at h
      exact ih h

/-- C5: for each spreadsheet-fetching asset, a non-200 fetch status aborts the
run with the raised fetch error (no table is returned), and a status of 200
never takes that error branch. -/
theorem desfa_non200_fatal (toDt : Cell → Cell) (status currentYear : Nat)
    (sheet full : List (List Cell)) :
    (status ≠ 200 ↔ desfa_flows_daily toDt status sheet = Except.error (fetch_err status)) ∧
    (status ≠ 200 ↔ desfa_ng_gcv_daily toDt status sheet = Except.error (fetch_err status)) ∧
    (status ≠ 200 ↔
      (desfa_ng_quality_yearly toDt currentYear status full).2 =
        Except.error (fetch_err status)) := by
  refine ⟨⟨?_, ?_⟩, ⟨?_, ?_⟩, ⟨?_, ?_⟩⟩
  · intro hne
    unfold desfa_flows_daily
    rw [if_neg hne]
  · intro herr h200
    subst h200
    unfold desfa_flows_daily at herr
    rw [if_pos rfl] at herr
    cases herr
  · intro hne
    unfold desfa_ng_gcv_daily
    rw [if_neg hne]
  · intro herr h200
    subst h200
    unfold desfa_ng_gcv_daily at herr
    rw [if_pos rfl] at herr
    cases herr
  · intro hne
    simp only [desfa_ng_quality_yearly]
    rw [if_neg hne]
  · intro herr h200
    subst h200
    simp only [desfa_ng_quality_yearly, eq_self_iff_true, if_true] at herr
    cases hr : (quality_loop toDt currentYear full entry_points).2 with
    | error e =>
      rw [hr] at herr
      dsimp only at herr
      cases herr
      have he := quality_loop_error toDt currentYear full entry_points _ hr
      revert he
      decide
    | ok blks =>
      rw [hr] at herr
      dsimp only at herr
      by_cases hb : blks = []
      · rw [if_pos hb] at herr
        dsimp only at herr
        injection herr with hs
        exact absurd hs (by decide)
      · rw [if_neg hb] at herr
        cases herr

theorem quality_loop_full (toDt : Cell → Cell) (cy : Nat) (full : List (List Cell))
    (ps : List String)
    (hproc : ∀ p ∈ ps, ∀ sr, quality_find_start full p = some sr →
       process_block toDt p (quality_block_rows full cy p sr) ≠ none) :
    (quality_loop toDt cy full ps).1 =
      (ps.filter (fun p => decide (quality_find_start full p = none))).map
        (fun p => QLog.warning ("No data found for entry point '" ++ p ++ "'")) ∧
    (quality_loop toDt cy full ps).2 = Except.ok (ps.filterMap (fun p =>
      (quality_find_start full p).bind (fun sr =>
        process_block toDt p (quality_block_rows full cy p sr)))) := by
  induction ps with
  | nil => exact ⟨rfl, rfl⟩
  | cons p ps ih =>
    cases hf : quality_find_start full p with
    | some sr =>
      have hne := hproc p (List.mem_cons_self p ps) sr hf
      cases hp : process_block toDt p (quality_block_rows full cy p sr) with
      | none => exact absurd hp hne
      | some blk =>
        obtain ⟨ih1, ih2⟩ := ih (fun q hq s h => hproc q (List.mem_cons_of_mem p hq) s h)
        constructor
        · simp only [quality_loop, hf, hp]
          rw [ih1, List.filter_cons]
          simp [hf]
        · simp only [quality_loop, hf, hp]
          rw [ih2]
          simp [Except.map, List.filterMap_cons, hf, hp]
    | none =>
      obtain ⟨ih1, ih2⟩ := ih (fun q hq s h => hproc q (List.mem_cons_of_mem p hq) s h)
      constructor
      · simp only [quality_loop, hf]
        rw [ih1, List.filter_cons]
        simp [hf]
      · simp only [quality_loop, hf]
        rw [ih2]
        simp [List.filterMap_cons, hf]

theorem quality_loop_fails (toDt : Cell → Cell) (cy : Nat) (full : List (List Cell))
    (ps : List String)
    (h : ∃ p ∈ ps, ∃ sr, quality_find_start full p = some sr ∧
       process_block toDt p (quality_block_rows full cy p sr) = none) :
    ∃ e2, (quality_loop toDt cy full ps).2 = Except.error e2 := by
  induction ps with
  | nil =>
    rcases h with ⟨p, hp, _⟩
    cases hp
  | cons p ps ih =>
    rcases h with ⟨q, hq, sr, hfq, hpq⟩
    rcases List.mem_cons.mp hq with hq | hq
    · subst hq
      simp only [quality_loop, hfq, hpq]
      exact ⟨_, rfl⟩
    · simp only [quality_loop]
      cases hf : quality_find_start full p with
      | some sr2 =>
        dsimp only
        cases hp2 : process_block toDt p (quality_block_rows full cy p sr2) with
        | none => exact ⟨_, rfl⟩
        | some blk =>
          rcases ih ⟨q, hq, sr, hfq, hpq⟩ with ⟨e2, he2⟩
          refine ⟨e2, ?_⟩
          dsimp only
          rw [he2]
          rfl
      | none =>
        rcases ih ⟨q, hq, sr, hfq, hpq⟩ with ⟨e2, he2⟩
        exact ⟨e2, he2⟩

/-- C6 amended: each entry point whose marker is absent is skipped with
exactly one warning (the warning list is exactly one warning per missing
point, in order), and the asset returns the concatenation of the found
blocks — provided at least one marker is found and every found block's
hydrocarbon_dew_point_max column converts to float.  When every marker is
missing, the final concatenation raises instead of returning a result, and
when a found block's hydrocarbon_dew_point_max column fails float
conversion, the astype call raises mid-loop and no result is returned. -/
theorem desfa_quality_missing_marker_amended
    (toDt : Cell → Cell) (currentYear : Nat) (full : List (List Cell)) :
    ((∃ p ∈ entry_points, quality_find_start full p ≠ none) →
     (∀ p ∈ entry_points, ∀ sr, quality_find_start full p = some sr →
        process_block toDt p (quality_block_rows full currentYear p sr) ≠ none) →
     (((desfa_ng_quality_yearly toDt currentYear 200 full).1.filter QLog.isWarn) =
        ((entry_points.filter (fun p => decide (quality_find_start full p = none))).map
          (fun p => QLog.warning ("No data found for entry point '" ++ p ++ "'"))) ∧
      (desfa_ng_quality_yearly toDt currentYear 200 full).2 =
        Except.ok (quality_found_blocks toDt currentYear full).flatten)) ∧
    ((∃ p ∈ entry_points, ∃ sr, quality_find_start full p = some sr ∧
        process_block toDt p (quality_block_rows full currentYear p sr) = none) →
      (desfa_ng_quality_yearly toDt currentYear 200 full).2 =
        Except.error "could not convert string to float") := by
  constructor
  · intro hfound hproc
    obtain ⟨h1, h2⟩ := quality_loop_full toDt currentYear full entry_points hproc
    have hblocks : (quality_loop toDt currentYear full entry_points).2 =
        Except.ok (quality_found_blocks toDt currentYear full) := h2
    have hnonempty : quality_found_blocks toDt currentYear full ≠ [] := by
      rcases hfound with ⟨p, hp, hne⟩
      cases hf : quality_find_start full p with
      | none => exact absurd hf hne
      | some sr =>
        cases hpb : process_block toDt p (quality_block_rows full currentYear p sr) with
        | none => exact absurd hpb (hproc p hp sr hf)
        | some blk =>
          have hmem : blk ∈ quality_found_blocks toDt currentYear full := by
            apply List.mem_filterMap.mpr
            exact ⟨p, hp, by rw [hf, Option.some_bind, hpb]⟩
          intro hnil
          rw [hnil] at hmem
          cases hmem
    constructor
    · simp only [desfa_ng_quality_yearly, eq_self_iff_true, if_true]
      rw [hblocks]
      dsimp only
      rw [if_neg hnonempty]
      dsimp only
      rw [List.filter_cons]
      have hinfo : QLog.isWarn (QLog.info "Handling single partition.") = false := rfl
      rw [hinfo]
      rw [h1, List.filter_map]
      have hall : ((entry_points.filter
          (fun p => decide (quality_find_start full p = none))).filter
          (fun p => QLog.isWarn (QLog.warning ("No data found for entry point '" ++ p ++ "'")))) =
          (entry_points.filter (fun p => decide (quality_find_start full p = none))) := by
        apply List.filter_eq_self.mpr
        intro a _
        rfl
      rw [show (QLog.isWarn ∘ fun p =>
          QLog.warning ("No data found for entry point '" ++ p ++ "'")) =
          (fun p => QLog.isWarn (QLog.warning ("No data found for entry point '" ++ p ++ "'")))
        from rfl, hall]
      simp
    · simp only [desfa_ng_quality_yearly, eq_self_iff_true, if_true]
      rw [hblocks]
      dsimp only
      rw [if_neg hnonempty]
  · intro hfail
    rcases quality_loop_fails toDt currentYear full entry_points hfail with ⟨e2, he2⟩
    have he2s := quality_loop_error toDt currentYear full entry_points e2 he2
    simp only [desfa_ng_quality_yearly, eq_self_iff_true, if_true]
    rw [he2]
    dsimp only
    rw [he2s]

/-- C6 counterexample: when every entry-point marker is missing (empty sheet),
the asset logs the four warnings but then aborts with the concatenation
error instead of returning a result, refuting the claim for the all-missing
subset. -/
theorem desfa_quality_all_missing_counterexample :
    ((desfa_ng_quality_yearly (fun c => c) 2025 200 []).1.filter QLog.isWarn).length = 4 ∧
    (desfa_ng_quality_yearly (fun c => c) 2025 200 []).2 =
      Except.error "No objects to concatenate" :=
  ⟨by decide, rfl⟩

/-- Concrete quality sheet containing the marker of one entry point only. -/
def c6fixture : List (List Cell) :=
  [ [Cell.str "Entry Point: AGIA TRIADA", Cell.nan],
    [Cell.nan], [Cell.nan],
    [Cell.str "2008", Cell.num 1, Cell.num 2, Cell.num 3, Cell.num 4, Cell.num 5, Cell.num 6,
     Cell.num 7, Cell.num 8, Cell.num 9, Cell.num 10, Cell.num 11, Cell.num 12, Cell.num 13,
     Cell.num 14, Cell.num 15] ]

/-- Concrete quality sheet whose single found block has an unconvertible
hydrocarbon_dew_point_max cell. -/
def c6badfixture : List (List Cell) :=
  [ [Cell.str "Entry Point: AGIA TRIADA", Cell.nan],
    [Cell.nan], [Cell.nan],
    [Cell.str "2008", Cell.num 1, Cell.num 2, Cell.num 3, Cell.num 4, Cell.num 5, Cell.num 6,
     Cell.num 7, Cell.num 8, Cell.num 9, Cell.num 10, Cell.num 11, Cell.num 12, Cell.num 13,
     Cell.num 14, Cell.str "abc"] ]

/-- Witness for the amended missing-marker theorem: on a sheet where one
point is found (and converts) and three are missing, the success conclusion
follows; on a sheet whose found block fails conversion, the asset aborts. -/
theorem desfa_quality_missing_marker_amended_witness :
    ((((desfa_ng_quality_yearly (fun c => c) 2025 200 c6fixture).1.filter QLog.isWarn) =
      ((entry_points.filter (fun p => decide (quality_find_start c6fixture p = none))).map
        (fun p => QLog.warning ("No data found for entry point '" ++ p ++ "'")))) ∧
     (desfa_ng_quality_yearly (fun c => c) 2025 200 c6fixture).2 =
       Except.ok (quality_found_blocks (fun c => c) 2025 c6fixture).flatten) ∧
    (desfa_ng_quality_yearly (fun c => c) 2025 200 c6badfixture).2 =
      Except.error "could not convert string to float" :=
  ⟨(desfa_quality_missing_marker_amended (fun c => c) 2025 c6fixture).1
    (by decide)
    (by
      intro p hp sr hsr
      simp only [entry_points] at hp
      fin_cases hp
      · rw [show quality_find_start c6fixture "AGIA TRIADA" = some 3 from by decide] at hsr
        cases hsr
        decide
      · rw [show quality_find_start c6fixture "SIDIROKASTRO" = none from by decide] at hsr
        cases hsr
      · rw [show quality_find_start c6fixture "KIPI" = none from by decide] at hsr
        cases hsr
      · rw [show quality_find_start c6fixture "NEA MESIMVRIA" = none from by decide] at hsr
        cases hsr),
   (desfa_quality_missing_marker_amended (fun c => c) 2025 c6badfixture).2
     ⟨"AGIA TRIADA", by decide, 3, by decide, by decide⟩⟩

/-- Concrete quality sheet whose c1 column carries a less-than prefix. -/
def c7fixture : List (List Cell) :=
  [ [Cell.str "Entry Point: AGIA TRIADA", Cell.nan],
    [Cell.nan], [Cell.nan],
    [Cell.str "2008", Cell.str "<1.2", Cell.num 2, Cell.num 3, Cell.num 4, Cell.num 5,
     Cell.num 6, Cell.num 7, Cell.num 8, Cell.num 9, Cell.num 10, Cell.num 11, Cell.num 12,
     Cell.num 13, Cell.num 14, Cell.num 15] ]

/-- C7 counterexample: a "<1.2" cell in the c1 column (not the
hydrocarbon_dew_point_max column) is left as the literal string in the
assembled block, refuting the claim that the strip applies to every column. -/
theorem desfa_quality_lt_counterexample :
    ∃ qout, (desfa_ng_quality_yearly (fun c => c) 2025 200 c7fixture).2 = Except.ok qout ∧
      ∃ q ∈ qout, q.vals.getD 0 Cell.nan = Cell.str "<1.2" :=
  ⟨_, rfl, by decide⟩

theorem lt_prefix_ne_dash (t : String) : ("<" ++ t : String) ≠ "-" := by
  intro h
  have h2 := congrArg String.data h
  rw [String.data_append] at h2
  simp at h2

/-- C7 amended: the less-than strip applies to the hydrocarbon_dew_point_max
column only (raw column index 15, `vals` index 14): a cell "<t" there is
parsed to the numeric value of t, while less-than cells in the other columns
are left as strings (see the counterexample). -/
theorem desfa_quality_lt_strip_amended
    (toDt : Cell → Cell) (p : String) (rows : List (List Cell)) (out : List QRow)
    (i : Nat) (t : String) (c : Cell)
    (hi : i < rows.length)
    (hcell : (rows.getD i []).getD 15 Cell.nan = Cell.str ("<" ++ t))
    (hparse : parse_float (pyRemoveLt ("<" ++ t)) = some c)
    (hout : process_block toDt p rows = some out) :
    (out.getD i ⟨Cell.nan, Cell.nan, []⟩).vals.getD 14 Cell.nan = c := by
  simp only [process_block] at hout
  have hv0len : (rows.map (fun r =>
      (List.range 15).map (fun j => replace_dash_with_nan (r.getD (j + 1) Cell.nan)))).length
      = rows.length := by simp
  have hvi : (rows.map (fun r =>
      (List.range 15).map (fun j => replace_dash_with_nan (r.getD (j + 1) Cell.nan)))).getD i []
      = (List.range 15).map (fun j =>
          replace_dash_with_nan ((rows.getD i []).getD (j + 1) Cell.nan)) :=
    getD_map_of_lt rows _ i [] [] hi
  have hcolA : ((rows.map (fun r =>
      (List.range 15).map (fun j => replace_dash_with_nan (r.getD (j + 1) Cell.nan)))).map
      (fun v => v.getD 14 Cell.nan)).getD i Cell.nan = Cell.str ("<" ++ t) := by
    rw [getD_map_of_lt _ _ i Cell.nan [] (by rw [hv0len]; exact hi), hvi,
      getD_map_range 15 14 _ Cell.nan (by omega), hcell]
    unfold replace_dash_with_nan
    rw [if_neg]
    intro hd
    injection hd with hd2
    exact lt_prefix_ne_dash t hd2
  have hany : ((rows.map (fun r =>
      (List.range 15).map (fun j => replace_dash_with_nan (r.getD (j + 1) Cell.nan)))).map
      (fun v => v.getD 14 Cell.nan)).any
      (fun x => match x with | Cell.str _ => true | _ => false) = true := by
    apply List.any_eq_true.mpr
    refine ⟨Cell.str ("<" ++ t), ?_, rfl⟩
    rw [← hcolA]
    have hlen2 : i < ((rows.map (fun r =>
        (List.range 15).map (fun j => replace_dash_with_nan (r.getD (j + 1) Cell.nan)))).map
        (fun v => v.getD 14 Cell.nan)).length := by
      simp [hi]
    rw [List.getD_eq_getElem _ _ hlen2]
    exact List.getElem_mem hlen2
  cases htr : hcdp_transform ((rows.map (fun r =>
      (List.range 15).map (fun j => replace_dash_with_nan (r.getD (j + 1) Cell.nan)))).map
      (fun v => v.getD 14 Cell.nan)) with
  | none =>
    rw [htr] at hout
    cases hout
  | some hcol2 =>
    rw [htr, Option.map_some'] at hout
    cases hout
    have hast : astype_float ((rows.map (fun r =>
        (List.range 15).map (fun j => replace_dash_with_nan (r.getD (j + 1) Cell.nan)))).map
        (fun v => v.getD 14 Cell.nan)) = some hcol2 := by
      unfold hcdp_transform at htr
      rw [if_pos hany] at htr
      exact htr
    obtain ⟨hlen, hidx⟩ := astype_float_getD _ _ hast
    have hieq := hidx i (by simp [hi])
    rw [hcolA] at hieq
    have hc2 : hcol2.getD i Cell.nan = c := by
      have : cell_to_str (Cell.str ("<" ++ t)) = "<" ++ t := rfl
      rw [this] at hieq
      rw [hparse] at hieq
      injection hieq with h3
      exact h3.symm
    rw [getD_map_range rows.length i _ _ hi]
    dsimp only
    have h14 : 14 < ((rows.map (fun r =>
        (List.range 15).map (fun j => replace_dash_with_nan (r.getD (j + 1) Cell.nan)))).getD i []).length := by
      rw [hvi]
      simp
    rw [List.getD_eq_getElem?_getD, List.getElem?_set_self (by omega), hc2]
    rfl

/-- Concrete block rows with a "<2.5" hydrocarbon_dew_point_max cell. -/
def c7wrows : List (List Cell) :=
  [ [Cell.str "2008", Cell.num 1, Cell.num 2, Cell.num 3, Cell.num 4, Cell.num 5, Cell.num 6,
     Cell.num 7, Cell.num 8, Cell.num 9, Cell.num 10, Cell.num 11, Cell.num 12, Cell.num 13,
     Cell.num 14, Cell.str "<2.5"] ]

/-- Witness for the amended less-than theorem: the "<2.5" cell of the
hydrocarbon_dew_point_max column parses and lands in the output block. -/
theorem desfa_quality_lt_strip_amended_witness :
    0 < c7wrows.length ∧
    (c7wrows.getD 0 []).getD 15 Cell.nan = Cell.str ("<" ++ "2.5") ∧
    ∃ c out, parse_float (pyRemoveLt ("<" ++ "2.5")) = some c ∧
      process_block (fun x => x) "AGIA TRIADA" c7wrows = some out ∧
      (out.getD 0 ⟨Cell.nan, Cell.nan, []⟩).vals.getD 14 Cell.nan = c :=
  ⟨by decide, by decide,
   ⟨_, _, rfl, rfl, desfa_quality_lt_strip_amended (fun x => x) "AGIA TRIADA" c7wrows _ 0 "2.5" _
      (by decide) (by decide) rfl rfl⟩⟩

theorem entsog_loop_tables (kinds ambiguous : List String) (db : List ERawRow)
    (days : List Nat) :
    (entsog_loop kinds ambiguous db days).2 = days.filterMap (fun d =>
      if entsog_api_call_with_retries db d (d + 1) kinds = [] then none
      else some (process_subwindow ambiguous
        (entsog_api_call_with_retries db d (d + 1) kinds))) := by
  induction days with
  | nil => rfl
  | cons d rest ih =>
    simp only [entsog_loop, List.filterMap_cons]
    by_cases hd : entsog_api_call_with_retries db d (d + 1) kinds = []
    · rw [if_pos hd, if_pos hd]
      exact ih
    · rw [if_neg hd, if_neg hd]
      dsimp only
      rw [ih]

theorem entsog_loop_logs_info (kinds ambiguous : List String) (db : List ERawRow)
    (days : List Nat) :
    ∀ l ∈ (entsog_loop kinds ambiguous db days).1, ELog.isWarn l = false := by
  induction days with
  | nil => intro l hl; cases hl
  | cons d rest ih =>
    intro l hl
    simp only [entsog_loop] at hl
    by_cases hd : entsog_api_call_with_retries db d (d + 1) kinds = []
    · rw [if_pos hd] at hl
      exact ih l hl
    · rw [if_neg hd] at hl
      rcases List.mem_cons.mp hl with hl | hl
      · rw [hl]
        rfl
      · exact ih l hl

theorem entsog_loop_tables_nil (kinds ambiguous : List String) (db : List ERawRow)
    (days : List Nat) :
    (entsog_loop kinds ambiguous db days).2 = [] ↔
      ∀ d ∈ days, entsog_api_call_with_retries db d (d + 1) kinds = [] := by
  induction days with
  | nil => simp [entsog_loop]
  | cons d rest ih =>
    simp only [entsog_loop]
    by_cases hd : entsog_api_call_with_retries db d (d + 1) kinds = []
    · rw [if_pos hd]
      simp only [List.mem_cons]
      constructor
      · intro h q hq
        rcases hq with hq | hq
        · rw [hq]; exact hd
        · exact ih.mp h q hq
      · intro h
        exact ih.mpr (fun q hq => h q (Or.inr hq))
    · rw [if_neg hd]
      simp only [List.mem_cons]
      constructor
      · intro h
        cases h
      · intro h
        exact absurd (h d (Or.inl rfl)) hd

/-- C4: when every sub-window fetch of a partition returns an empty result,
each windowed asset returns the explicit absent marker (not an error and not
a zero-row table); when at least one sub-window returns data, it returns the
concatenation of the processed tables of all sub-windows with non-empty
fetches. -/
theorem entsog_empty_partition_output (kinds ambiguous : List String)
    (db : List ERawRow) (s e : Nat) :
    ((∀ d ∈ date_range_2D s e, entsog_api_call_with_retries db d (d + 1) kinds = []) →
      (entsog_windowed_asset kinds ambiguous db s e).2 = none) ∧
    ((∃ d ∈ date_range_2D s e, entsog_api_call_with_retries db d (d + 1) kinds ≠ []) →
      (entsog_windowed_asset kinds ambiguous db s e).2 =
        some (((date_range_2D s e).filterMap (fun d =>
          if entsog_api_call_with_retries db d (d + 1) kinds = [] then none
          else some (process_subwindow ambiguous
            (entsog_api_call_with_retries db d (d + 1) kinds)))).flatten)) := by
  constructor
  · intro hall
    have hnil : (entsog_loop kinds ambiguous db (date_range_2D s e)).2 = [] :=
      (entsog_loop_tables_nil kinds ambiguous db (date_range_2D s e)).mpr hall
    simp only [entsog_windowed_asset]
    rw [if_pos hnil]
  · rintro ⟨d, hd, hne⟩
    have hnotnil : (entsog_loop kinds ambiguous db (date_range_2D s e)).2 ≠ [] := by
      intro hnil
      exact hne ((entsog_loop_tables_nil kinds ambiguous db (date_range_2D s e)).mp hnil d hd)
    simp only [entsog_windowed_asset]
    rw [if_neg hnotnil]
    by_cases hu : isUniqueKeys (entsog_loop kinds ambiguous db (date_range_2D s e)).2.flatten
    · rw [if_pos hu]
      rw [entsog_loop_tables]
    · rw [if_neg hu]
      rw [entsog_loop_tables]

/-- C3: when the concatenated partition table has a non-unique composite key,
exactly one warning is emitted, carrying exactly the rows whose key occurs
more than once, and the returned table is the unmodified concatenation — no
duplicate is removed. -/
theorem entsog_duplicate_single_warning (kinds ambiguous : List String)
    (db : List ERawRow) (s e : Nat)
    (hdup : isUniqueKeys ((entsog_loop kinds ambiguous db (date_range_2D s e)).2.flatten)
      = false) :
    ((entsog_windowed_asset kinds ambiguous db s e).1.filter ELog.isWarn =
      [ELog.warnDuplicates
        (((entsog_loop kinds ambiguous db (date_range_2D s e)).2.flatten).filter
          (duplicatedMark ((entsog_loop kinds ambiguous db (date_range_2D s e)).2.flatten)))]) ∧
    (entsog_windowed_asset kinds ambiguous db s e).2 =
      some ((entsog_loop kinds ambiguous db (date_range_2D s e)).2.flatten) := by
  have hnotnil : (entsog_loop kinds ambiguous db (date_range_2D s e)).2 ≠ [] := by
    intro hnil
    rw [hnil] at hdup
    cases hdup
  simp only [entsog_windowed_asset]
  rw [if_neg hnotnil, if_neg (by rw [hdup]; exact Bool.false_ne_true)]
  constructor
  · rw [List.filter_append]
    have h1 : ((entsog_loop kinds ambiguous db (date_range_2D s e)).1.filter ELog.isWarn) = [] := by
      apply List.filter_eq_nil_iff.mpr
      intro l hl
      rw [entsog_loop_logs_info kinds ambiguous db (date_range_2D s e) l hl]
      exact Bool.false_ne_true
    rw [h1]
    rfl
  · rfl

/-- Concrete remote dataset with one observation on day 0. -/
def c4db : List ERawRow :=
  [ { indicator := "physical_flow", period_from := 0, direction_key := "entry",
      point_label := "P", operator_key := "O1", value := some "1" } ]

/-- Witness for the empty-partition theorem: an empty dataset yields the
absent marker, a one-row dataset yields the concatenation. -/
theorem entsog_empty_partition_output_witness :
    (entsog_windowed_asset ["physical_flow"] [] [] 0 2).2 = none ∧
    (entsog_windowed_asset ["physical_flow"] [] c4db 0 2).2 =
      some (((date_range_2D 0 2).filterMap (fun d =>
        if entsog_api_call_with_retries c4db d (d + 1) ["physical_flow"] = [] then none
        else some (process_subwindow []
          (entsog_api_call_with_retries c4db d (d + 1) ["physical_flow"])))).flatten) :=
  ⟨(entsog_empty_partition_output ["physical_flow"] [] [] 0 2).1 (by decide),
   (entsog_empty_partition_output ["physical_flow"] [] c4db 0 2).2 ⟨0, by decide, by decide⟩⟩

/-- Concrete remote dataset with two same-key observations on day 0. -/
def c3db : List ERawRow :=
  [ { indicator := "physical_flow", period_from := 0, direction_key := "entry",
      point_label := "P", operator_key := "O1", value := some "1" },
    { indicator := "physical_flow", period_from := 0, direction_key := "entry",
      point_label := "P", operator_key := "O2", value := some "2" } ]

/-- Witness for the duplicate-warning theorem on a dataset with a colliding
composite key. -/
theorem entsog_duplicate_single_warning_witness :
    isUniqueKeys ((entsog_loop ["physical_flow"] [] c3db (date_range_2D 0 1)).2.flatten)
      = false ∧
    ((entsog_windowed_asset ["physical_flow"] [] c3db 0 1).1.filter ELog.isWarn =
      [ELog.warnDuplicates
        (((entsog_loop ["physical_flow"] [] c3db (date_range_2D 0 1)).2.flatten).filter
          (duplicatedMark
            ((entsog_loop ["physical_flow"] [] c3db (date_range_2D 0 1)).2.flatten)))]) ∧
    (entsog_windowed_asset ["physical_flow"] [] c3db 0 1).2 =
      some ((entsog_loop ["physical_flow"] [] c3db (date_range_2D 0 1)).2.flatten) :=
  ⟨by decide,
   (entsog_duplicate_single_warning ["physical_flow"] [] c3db 0 1 (by decide)).1,
   (entsog_duplicate_single_warning ["physical_flow"] [] c3db 0 1 (by decide)).2⟩

theorem process_subwindow_value (ambiguous : List String) (raw : List ERawRow) :
    ∀ r ∈ process_subwindow ambiguous raw, r.value ≠ none ∧ r.value ≠ some "" := by
  intro r hr
  simp only [process_subwindow] at hr
  rcases List.mem_filter.mp hr with ⟨hr2, hv2⟩
  rcases List.mem_filter.mp hr2 with ⟨_, hv1⟩
  exact ⟨by simpa using hv2, by simpa using hv1⟩

/-- C9: every row of the partition table returned by a windowed asset has a
value that is neither null nor the empty string. -/
theorem entsog_value_filter (kinds ambiguous : List String) (db : List ERawRow)
    (s e : Nat) (t : List ERow)
    (h : (entsog_windowed_asset kinds ambiguous db s e).2 = some t) :
    ∀ r ∈ t, r.value ≠ none ∧ r.value ≠ some "" := by
  have ht : t = (entsog_loop kinds ambiguous db (date_range_2D s e)).2.flatten := by
    simp only [entsog_windowed_asset] at h
    by_cases hnil : (entsog_loop kinds ambiguous db (date_range_2D s e)).2 = []
    · rw [if_pos hnil] at h
      cases h
    · rw [if_neg hnil] at h
      by_cases hu : isUniqueKeys (entsog_loop kinds ambiguous db (date_range_2D s e)).2.flatten
      · rw [if_pos hu] at h
        injection h with h2
        exact h2.symm
      · rw [if_neg hu] at h
        injection h with h2
        exact h2.symm
  intro r hr
  rw [ht] at hr
  rcases List.mem_flatten.mp hr with ⟨tbl, htbl, hrtbl⟩
  rw [entsog_loop_tables] at htbl
  rcases List.mem_filterMap.mp htbl with ⟨d, _, hdt⟩
  by_cases hd : entsog_api_call_with_retries db d (d + 1) kinds = []
  · rw [if_pos hd] at hdt
    cases hdt
  · rw [if_neg hd] at hdt
    injection hdt with hdt2
    rw [← hdt2] at hrtbl
    exact process_subwindow_value ambiguous _ r hrtbl

/-- Concrete dataset carrying a proper value, a null value and an
empty-string value. -/
def c9db : List ERawRow :=
  [ { indicator := "physical_flow", period_from := 0, direction_key := "entry",
      point_label := "P", operator_key := "O1", value := some "1" },
    { indicator := "physical_flow", period_from := 0, direction_key := "entry",
      point_label := "Q", operator_key := "O1", value := none },
    { indicator := "physical_flow", period_from := 1, direction_key := "exit",
      point_label := "R", operator_key := "O1", value := some "" } ]

theorem entsog_value_filter_witness :
    ∃ t, (entsog_windowed_asset ["physical_flow"] [] c9db 0 1).2 = some t ∧
      ∀ r ∈ t, r.value ≠ none ∧ r.value ≠ some "" :=
  ⟨_, rfl, entsog_value_filter ["physical_flow"] [] c9db 0 1 _ rfl⟩

theorem date_range_2D_eq_map (s e : Nat) (hse : s ≤ e) :
    date_range_2D s e = (List.range ((e - s) / 2 + 1)).map (fun i => s + 2 * i) := by
  simp [date_range_2D, if_pos hse]

/-- C10: the sub-window request starts are exactly start, start+2, ... up to
the last such day not after end; each request spans the inclusive window from
its start day to the next day; consecutive starts differ by exactly 2 (so the
2-day spans are adjacent and non-overlapping); and when the partition end
lands on a generated start (even day span), the final request window
(end, end+1) extends one day past the partition end. -/
theorem entsog_request_windows (s e : Nat) (hse : s ≤ e) :
    (∀ d, d ∈ date_range_2D s e ↔ ∃ i, d = s + 2 * i ∧ d ≤ e) ∧
    (∀ pr ∈ entsog_requests s e, pr.2 = pr.1 + 1 ∧ pr.1 ∈ date_range_2D s e) ∧
    (∀ i, i + 1 < (date_range_2D s e).length →
      (date_range_2D s e).getD (i + 1) 0 = (date_range_2D s e).getD i 0 + 2) ∧
    ((e - s) % 2 = 0 → (e, e + 1) ∈ entsog_requests s e) := by
  have hmap := date_range_2D_eq_map s e hse
  refine ⟨?_, ?_, ?_, ?_⟩
  · intro d
    rw [hmap]
    simp only [List.mem_map, List.mem_range]
    constructor
    · rintro ⟨i, hi, rfl⟩
      exact ⟨i, rfl, by omega⟩
    · rintro ⟨i, rfl, hle⟩
      exact ⟨i, by omega, rfl⟩
  · intro pr hpr
    rcases List.mem_map.mp hpr with ⟨d, hd, hprd⟩
    rw [← hprd]
    exact ⟨rfl, hd⟩
  · intro i hi
    rw [hmap] at hi ⊢
    have hlen : i + 1 < (e - s) / 2 + 1 := by simpa using hi
    rw [getD_map_range _ _ _ _ hlen, getD_map_range _ _ _ _ (by omega)]
    omega
  · intro heven
    apply List.mem_map.mpr
    refine ⟨e, ?_, rfl⟩
    rw [hmap]
    apply List.mem_map.mpr
    exact ⟨(e - s) / 2, List.mem_range.mpr (by omega), by omega⟩

/-- Witness for the request-window theorem on the partition of days 0 to 4. -/
theorem entsog_request_windows_witness :
    (0 : Nat) ≤ 4 ∧
    (4 ∈ date_range_2D 0 4 ↔ ∃ i, 4 = 0 + 2 * i ∧ 4 ≤ 4) ∧
    (4, 5) ∈ entsog_requests 0 4 :=
  ⟨by decide, (entsog_request_windows 0 4 (by decide)).1 4,
   (entsog_request_windows 0 4 (by decide)).2.2.2 (by decide)⟩

theorem decide_or_eq (p q : Prop) [Decidable p] [Decidable q] :
    decide (p ∨ q) = (decide p || decide q) := by
  by_cases hp : p <;> by_cases hq : q <;> simp [hp, hq]

theorem filter_split {α : Type} (l : List α) (p q r : α → Bool)
    (hpq : ∀ x, p x = (q x || r x)) (hdisj : ∀ x, ¬(q x = true ∧ r x = true)) :
    List.Perm (l.filter p) (l.filter q ++ l.filter r) := by
  induction l with
  | nil => simp
  | cons x xs ih =>
    rw [List.filter_cons, List.filter_cons, List.filter_cons]
    by_cases hq : q x = true
    · have hr : r x = false := by
        cases hrx : r x
        · rfl
        · exact absurd ⟨hq, hrx⟩ (hdisj x)
      have hp : p x = true := by rw [hpq, hq, hr]; rfl
      simp only [hp, hq, hr, if_true, if_false]
      exact List.Perm.cons x ih
    · have hqf : q x = false := by simpa using hq
      by_cases hr : r x = true
      · have hp : p x = true := by rw [hpq, hqf, hr]; rfl
        simp only [hp, hqf, hr, if_true, if_false, Bool.false_eq_true]
        exact (ih.cons x).trans List.perm_middle.symm
      · have hrf : r x = false := by simpa using hr
        have hp : p x = false := by rw [hpq, hqf, hrf]; rfl
        simp only [hp, hqf, hrf, if_false, Bool.false_eq_true]
        exact ih

theorem entsog_windows_cover (kinds : List String) (db : List ERawRow) :
    ∀ n s e, s ≤ e → e - s = 2 * n + 1 →
      List.Perm
        (((date_range_2D s e).map (fun d =>
          entsog_api_call_with_retries db d (d + 1) kinds)).flatten)
        (entsog_api_call_with_retries db s e kinds) := by
  intro n
  induction n with
  | zero =>
    intro s e hse hdiff
    have he : e = s + 1 := by omega
    subst he
    have hdays : date_range_2D s (s + 1) = [s] := by
      rw [date_range_2D_eq_map s (s + 1) (by omega)]
      rw [show (s + 1 - s) / 2 + 1 = 1 from by omega, show List.range 1 = [0] from by decide]
      simp
    rw [hdays]
    simp
  | succ m ih =>
    intro s e hse hdiff
    have hdays : date_range_2D s e = s :: date_range_2D (s + 2) e := by
      rw [date_range_2D_eq_map s e hse, date_range_2D_eq_map (s + 2) e (by omega)]
      have h1 : (e - s) / 2 + 1 = ((e - (s + 2)) / 2 + 1) + 1 := by omega
      rw [h1, List.range_succ_eq_map]
      rw [List.map_cons, List.map_map]
      congr 1
      apply List.map_congr_left
      intro i _
      simp only [Function.comp]
      omega
    have hsplit : List.Perm (entsog_api_call_with_retries db s e kinds)
        (entsog_api_call_with_retries db s (s + 1) kinds ++
          entsog_api_call_with_retries db (s + 2) e kinds) := by
      unfold entsog_api_call_with_retries
      apply filter_split
      · intro x
        have hiff : (x.indicator ∈ kinds ∧ s ≤ x.period_from ∧ x.period_from ≤ e) ↔
            ((x.indicator ∈ kinds ∧ s ≤ x.period_from ∧ x.period_from ≤ s + 1) ∨
             (x.indicator ∈ kinds ∧ s + 2 ≤ x.period_from ∧ x.period_from ≤ e)) := by
          constructor
          · rintro ⟨hk, h1, h2⟩
            by_cases hb : x.period_from ≤ s + 1
            · exact Or.inl ⟨hk, h1, hb⟩
            · exact Or.inr ⟨hk, by omega, h2⟩
          · rintro (⟨hk, h1, h2⟩ | ⟨hk, h1, h2⟩)
            · exact ⟨hk, h1, by omega⟩
            · exact ⟨hk, by omega, h2⟩
        rw [decide_eq_decide.mpr hiff]
        exact decide_or_eq _ _
      · rintro x ⟨h1, h2⟩
        have g1 := of_decide_eq_true h1
        have g2 := of_decide_eq_true h2
        omega
    rw [hdays, List.map_cons, List.flatten_cons]
    have ihp := ih (s + 2) e (by omega) (by omega)
    exact (List.Perm.append_left _ ihp).trans hsplit.symm

theorem process_subwindow_append (ambiguous : List String) (a b : List ERawRow) :
    process_subwindow ambiguous (a ++ b) =
      process_subwindow ambiguous a ++ process_subwindow ambiguous b := by
  simp [process_subwindow, label_potential_duplicates_with_tso, List.map_append,
    List.filter_append]

theorem process_subwindow_perm (ambiguous : List String) {a b : List ERawRow}
    (h : List.Perm a b) :
    List.Perm (process_subwindow ambiguous a) (process_subwindow ambiguous b) := by
  simp only [process_subwindow, label_potential_duplicates_with_tso]
  exact (((h.map _).map _).filter _).filter _

theorem process_flatten (ambiguous : List String) (L : List (List ERawRow)) :
    (L.map (process_subwindow ambiguous)).flatten =
      process_subwindow ambiguous L.flatten := by
  induction L with
  | nil => rfl
  | cons a L ih =>
    rw [List.map_cons, List.flatten_cons, List.flatten_cons, ih,
      process_subwindow_append]

theorem entsog_loop_flatten (kinds ambiguous : List String) (db : List ERawRow)
    (days : List Nat) :
    (entsog_loop kinds ambiguous db days).2.flatten =
      ((days.map (fun d => entsog_api_call_with_retries db d (d + 1) kinds)).map
        (process_subwindow ambiguous)).flatten := by
  rw [entsog_loop_tables]
  induction days with
  | nil => rfl
  | cons d rest ih =>
    simp only [List.filterMap_cons, List.map_cons, List.flatten_cons]
    by_cases hd : entsog_api_call_with_retries db d (d + 1) kinds = []
    · rw [if_pos hd, hd]
      rw [show process_subwindow ambiguous [] = [] from rfl]
      rw [List.nil_append]
      exact ih
    · rw [if_neg hd]
      rw [List.flatten_cons]
      rw [ih]

/-- Concrete dataset with one observation on day 3, outside the partition
[0, 2] but inside the final 2-day request window. -/
def c8db : List ERawRow :=
  [ { indicator := "physical_flow", period_from := 3, direction_key := "entry",
      point_label := "P", operator_key := "O1", value := some "1" } ]

/-- C8 counterexample: on the even-width partition from day 0 to day 2, the
final sub-window request [2, 3] fetches an observation of day 3 that the
unsplit query over [0, 2] does not return, so the concatenated split result
does not equal the unsplit reshape. -/
theorem entsog_split_roundtrip_counterexample :
    ((entsog_loop ["physical_flow"] [] c8db (date_range_2D 0 2)).2.flatten).length = 1 ∧
    (entsog_unsplit ["physical_flow"] [] c8db 0 2).length = 0 :=
  ⟨by decide, by decide⟩

/-- C8 amended: when the partition spans an odd number of days (so the 2-day
sub-windows tile the partition exactly), the table returned by a windowed
asset is a permutation of the reshape of the single unsplit query over the
partition; when the span is even, the final sub-window extends one day past
the partition end and can contribute rows absent from the unsplit query, as
the counterexample records. -/
theorem entsog_split_roundtrip_amended (kinds ambiguous : List String)
    (db : List ERawRow) (s e : Nat) (t : List ERow)
    (hse : s ≤ e) (hodd : (e - s) % 2 = 1)
    (h : (entsog_windowed_asset kinds ambiguous db s e).2 = some t) :
    List.Perm t (entsog_unsplit kinds ambiguous db s e) := by
  have ht : t = (entsog_loop kinds ambiguous db (date_range_2D s e)).2.flatten := by
    simp only [entsog_windowed_asset] at h
    by_cases hnil : (entsog_loop kinds ambiguous db (date_range_2D s e)).2 = []
    · rw [if_pos hnil] at h
      cases h
    · rw [if_neg hnil] at h
      by_cases hu : isUniqueKeys (entsog_loop kinds ambiguous db (date_range_2D s e)).2.flatten
      · rw [if_pos hu] at h
        injection h with h2
        exact h2.symm
      · rw [if_neg hu] at h
        injection h with h2
        exact h2.symm
  rw [ht, entsog_loop_flatten, process_flatten]
  unfold entsog_unsplit
  apply process_subwindow_perm
  exact entsog_windows_cover kinds db ((e - s - 1) / 2) s e hse (by omega)

/-- Concrete dataset with one observation on day 0 for the round-trip
witness. -/
def c8wdb : List ERawRow :=
  [ { indicator := "physical_flow", period_from := 0, direction_key := "entry",
      point_label := "P", operator_key := "O1", value := some "1" } ]

/-- Witness for the amended round-trip theorem on the odd-width partition
from day 0 to day 1. -/
theorem entsog_split_roundtrip_amended_witness :
    (0 : Nat) ≤ 1 ∧ (1 - 0) % 2 = 1 ∧
    ∃ t, (entsog_windowed_asset ["physical_flow"] [] c8wdb 0 1).2 = some t ∧
      List.Perm t (entsog_unsplit ["physical_flow"] [] c8wdb 0 1) :=
  ⟨by decide, by decide,
   ⟨_, rfl, entsog_split_roundtrip_amended ["physical_flow"] [] c8wdb 0 1 _
      (by decide) (by decide) rfl⟩⟩
